import Mathlib

/-!
Shallow embedding of the `yallmp` LLM reverse-proxy core (Python) used to
check its natural-language specification.  Every definition is translated
from the Python source under `app/`:

* `app/core/proxy.py` — `CircuitBreaker`, `exponential_backoff_retry`,
  `_parse_model_version`, `_emit_streaming_metrics`, `_strip_model_prefix`;
* `app/services/token_manager.py` — `OIDCTokenManager`;
* `app/services/metrics_callback_handler.py` — `MetricsCallbackHandler`;
* `app/core/security.py` — `redact_headers`;
* `app/services/llm_hub.py` — provider-registry loading (env expansion via
  `os.path.expandvars`).

Modelling conventions: wall-clock timestamps (Python `time.time()` floats)
become rationals; Python `int` becomes `Int`/`Nat`; byte strings that the
code always decodes as UTF-8 become `String`; fallible code returns
`Option`/`Except`; `async` methods become pure state-passing functions
(each `async with self._lock` body is one atomic step).
-/

namespace Yallmp

/-! ## Circuit breaker (`app/core/proxy.py`, class `CircuitBreaker`)

`failure_threshold`, `recovery_time`, `window_size` hold the resolved
configuration values (the Python properties fall back to `settings`;
the settings defaults are threshold `0`, recovery `30`, window `60`). -/

structure CircuitBreaker where
  failure_threshold : Int
  recovery_time : ℚ
  window_size : ℚ
  is_open : Bool
  open_time : ℚ
  failure_timestamps : List ℚ
  deriving Repr, DecidableEq

/-- `CircuitBreaker.__init__` with resolved configuration values. -/
def CircuitBreaker.init (threshold : Int) (recovery window : ℚ) : CircuitBreaker :=
  { failure_threshold := threshold
    recovery_time := recovery
    window_size := window
    is_open := false
    open_time := 0
    failure_timestamps := [] }

/-- `CircuitBreaker.check_open`: returns `True` (admission denied) iff the
breaker is open and the recovery time has not yet elapsed.  The Python body
mutates nothing, so the state component of the result is the input state. -/
def CircuitBreaker.check_open (cb : CircuitBreaker) (now : ℚ) : Bool × CircuitBreaker :=
  (cb.is_open && decide (now - cb.open_time < cb.recovery_time), cb)

/-- `CircuitBreaker.record_success`: clears the failure list. -/
def CircuitBreaker.record_success (cb : CircuitBreaker) : CircuitBreaker :=
  { cb with failure_timestamps := [] }

/-- `CircuitBreaker.record_failure`: appends `now`, prunes timestamps `ts`
with `ts <= now - window_size`, and activates the breaker when
`failure_threshold > 0` and the retained count reaches the threshold.
Returns the new state and whether the breaker was activated. -/
def CircuitBreaker.record_failure (cb : CircuitBreaker) (now : ℚ) : CircuitBreaker × Bool :=
  let window_start := now - cb.window_size
  let ts := (cb.failure_timestamps ++ [now]).filter (fun t => window_start < t)
  if 0 < cb.failure_threshold ∧ cb.failure_threshold ≤ (ts.length : Int) then
    ({ cb with failure_timestamps := ts, is_open := true, open_time := now }, true)
  else
    ({ cb with failure_timestamps := ts }, false)

/-- One public circuit-breaker operation together with the wall-clock time
at which it runs (`record_success` reads no clock). -/
inductive CBOp where
  | check (now : ℚ)
  | success
  | failure (now : ℚ)
  deriving Repr, DecidableEq

/-- Apply one operation to a breaker, discarding the returned boolean. -/
def CBOp.apply (cb : CircuitBreaker) : CBOp → CircuitBreaker
  | .check now => (cb.check_open now).2
  | .success => cb.record_success
  | .failure now => (cb.record_failure now).1

/-- Run a finite sequence of circuit-breaker operations. -/
def CircuitBreaker.runOps (cb : CircuitBreaker) (ops : List CBOp) : CircuitBreaker :=
  ops.foldl CBOp.apply cb

/-! ## Retry executor (`app/core/proxy.py`, `exponential_backoff_retry`)

One attempt of the wrapped thunk either returns an HTTP response or raises
`ConnectError` / `RequestError`.  Response bodies (the value of
`extract_content(response)`) and the synthesized exception dicts are kept
abstract in a type `α`.  Back-off sleeps and jitter do not affect the
modelled state and are not represented. -/

inductive CallResult (α : Type) where
  | response (status : Int) (retryAfter : Option Int) (body : α)
  | connectError (errBody : α)
  | requestError (errBody : α)
  deriving Repr, DecidableEq

/-- Results of `exponential_backoff_retry`:
* `circuitOpen` — the 503 "Circuit breaker open. Try later." response;
* `circuitActivated` — the 503 "Circuit breaker activated. Try later." response;
* `success` — an upstream response returned directly (after `record_success`);
* `exhausted` — the synthetic `JSONResponse(error_response, last_status)`
  built after the loop ends; `body = none` models the initial
  `error_response = ""` (no attempt ever produced a body). -/
inductive RetryResult (α : Type) where
  | circuitOpen
  | circuitActivated
  | success (status : Int) (body : α)
  | exhausted (status : Int) (body : Option α)
  deriving Repr, DecidableEq

/-- The retry loop body of `exponential_backoff_retry`.  `calls n` is the
outcome of the thunk's `n`-th invocation and `times n` the wall-clock time
at which a failure of attempt `n` is recorded.  `fuel` is the number of
remaining attempts, `attempt` the current attempt index.  The third result
component counts how many times the thunk was invoked. -/
def retryLoop {α : Type} (calls : Nat → CallResult α) (times : Nat → ℚ) :
    Nat → Nat → CircuitBreaker → Int → Option α → RetryResult α × CircuitBreaker × Nat
  | 0, _, cb, lastStatus, lastBody => (.exhausted lastStatus lastBody, cb, 0)
  | fuel + 1, attempt, cb, lastStatus, _ =>
    match calls attempt with
    | .response s _ body =>
      if s = 429 then
        -- 429: sleep (Retry-After or back-off) and continue, no breaker update
        let r := retryLoop calls times fuel (attempt + 1) cb s (some body)
        (r.1, r.2.1, r.2.2 + 1)
      else if ¬ (s = 500 ∨ s = 502 ∨ s = 503 ∨ s = 504) then
        (.success s body, cb.record_success, 1)
      else
        let rf := cb.record_failure (times attempt)
        if rf.2 then (.circuitActivated, rf.1, 1)
        else
          let r := retryLoop calls times fuel (attempt + 1) rf.1 s (some body)
          (r.1, r.2.1, r.2.2 + 1)
    | .connectError e =>
      -- the synthesized "Connection failed" dict becomes the error body;
      -- last_response_status_code is unchanged
      let rf := cb.record_failure (times attempt)
      if rf.2 then (.circuitActivated, rf.1, 1)
      else
        let r := retryLoop calls times fuel (attempt + 1) rf.1 lastStatus (some e)
        (r.1, r.2.1, r.2.2 + 1)
    | .requestError e =>
      -- the synthesized "Request failed" dict becomes the error body
      let rf := cb.record_failure (times attempt)
      if rf.2 then (.circuitActivated, rf.1, 1)
      else
        let r := retryLoop calls times fuel (attempt + 1) rf.1 lastStatus (some e)
        (r.1, r.2.1, r.2.2 + 1)

/-- `exponential_backoff_retry` with resolved policy values: first the
admission check on the breaker (at time `t0`), then `1 + maxRetries` loop
iterations.  `last_response_status_code` starts at the sentinel `523` and
`error_response` at `""` (modelled as `none`). -/
def exponential_backoff_retry {α : Type} (maxRetries : Nat) (cb : CircuitBreaker)
    (calls : Nat → CallResult α) (times : Nat → ℚ) (t0 : ℚ) :
    RetryResult α × CircuitBreaker × Nat :=
  if (cb.check_open t0).1 then (.circuitOpen, cb, 0)
  else retryLoop calls times (1 + maxRetries) 0 cb 523 none

/-! ## OIDC token manager (`app/services/token_manager.py`)

The upstream token endpoint's reply is modelled by its status code and the
four JSON fields the code reads.  A field that is absent is `none`;
Python truthiness makes the empty string and the integer `0` act like
absent values in the `or` chains, which `pyOrStr` / `pyOrInt` replicate. -/

structure OIDCTokenManager where
  authorization_url : String
  credentials : String
  scope : Option String
  token : Option String
  expires_at : Int
  deriving Repr, DecidableEq

/-- `OIDCTokenManager.__init__`. -/
def OIDCTokenManager.init (url creds : String) (scope : Option String) : OIDCTokenManager :=
  { authorization_url := url, credentials := creds, scope := scope
    token := none, expires_at := 0 }

/-- The upstream reply to the token POST. -/
structure TokenResponse where
  status_code : Nat
  access_token : Option String
  tok : Option String
  expires_at : Option Int
  exp : Option Int
  deriving Repr, DecidableEq

/-- Python `a or b` on two optional strings (absent or `""` falls through). -/
def pyOrStr (a b : Option String) : Option String :=
  match a with
  | some s => if s = "" then b else some s
  | none => b

/-- Python `a or b` on two optional integers (absent or `0` falls through). -/
def pyOrInt (a b : Option Int) : Option Int :=
  match a with
  | some v => if v = 0 then b else some v
  | none => b

/-- Python truthiness of `self.token` (`None` and `""` are falsy). -/
def tokenTruthy : Option String → Bool
  | none => false
  | some s => s ≠ ""

/-- Errors raised by `fetch_token`: `response.raise_for_status()` on a
non-2xx status, or the two `ValueError`s for missing fields. -/
inductive FetchError where
  | httpStatus (code : Nat)
  | missingToken
  | missingExpiry
  deriving Repr, DecidableEq

/-- `raise_for_status` raises unless the status is 2xx. -/
def statusIsSuccess (code : Nat) : Bool := 200 ≤ code ∧ code < 300

/-- `OIDCTokenManager.fetch_token`, after the POST has returned `resp`:
check the status, assign `self.token`, validate it, then compute and store
`expires_at` with the 20 000 ms safety margin.  Returns the new manager
state and the raised error, if any.  Note that `self.token` is assigned
before the missing-token check, so a failing fetch can still overwrite it. -/
def OIDCTokenManager.fetch_token (m : OIDCTokenManager) (resp : TokenResponse) :
    OIDCTokenManager × Option FetchError :=
  if ¬ statusIsSuccess resp.status_code then
    (m, some (.httpStatus resp.status_code))
  else
    let tokenVal := pyOrStr resp.access_token resp.tok
    let m1 := { m with token := tokenVal }
    if ¬ tokenTruthy tokenVal then (m1, some .missingToken)
    else
      match pyOrInt resp.expires_at resp.exp with
      | none => (m1, some .missingExpiry)
      | some e => ({ m1 with expires_at := e - 20000 }, none)

/-- `OIDCTokenManager.get_token` at wall-clock `now_ms`, with `resp` the
reply the upstream would give to a refresh POST.  The boolean records
whether an upstream POST was issued.  On the cached path the stored token
is returned; otherwise `fetch_token` runs and its error (if any) propagates. -/
def OIDCTokenManager.get_token (m : OIDCTokenManager) (now_ms : Int) (resp : TokenResponse) :
    OIDCTokenManager × Bool × Except FetchError (Option String) :=
  if ¬ tokenTruthy m.token ∨ m.expires_at ≤ now_ms then
    match m.fetch_token resp with
    | (m', none) => (m', true, .ok m'.token)
    | (m', some e) => (m', true, .error e)
  else (m, false, .ok m.token)

/-! ### Interleaving of two concurrent `get_token` calls

`get_token` has no lock; its only suspension point is
`response = await client.post(...)` inside `fetch_token`.  Each call is
therefore two atomic blocks: the cache check (which, on a miss, issues the
POST and suspends) and the post-response continuation (parse, store,
return).  A schedule is the order in which the two calls run their blocks. -/

deriving instance DecidableEq for Except

inductive TaskPhase where
  | ready
  | fetching
  | finished (posted : Bool) (result : Except FetchError (Option String))
  deriving Repr, DecidableEq

/-- Joint state of the shared manager, the upstream POST counter and the
two callers. -/
structure TwoCallState where
  mgr : OIDCTokenManager
  posts : Nat
  taskA : TaskPhase
  taskB : TaskPhase
  deriving Repr, DecidableEq

/-- Run one atomic block of one caller at time `now_ms` (a `finished`
caller does nothing).  `resp` is the upstream's reply to any POST. -/
def stepTask (now_ms : Int) (resp : TokenResponse) (m : OIDCTokenManager) (posts : Nat) :
    TaskPhase → OIDCTokenManager × Nat × TaskPhase
  | .ready =>
    if ¬ tokenTruthy m.token ∨ m.expires_at ≤ now_ms then
      (m, posts + 1, .fetching)
    else
      (m, posts, .finished false (.ok m.token))
  | .fetching =>
    match m.fetch_token resp with
    | (m', none) => (m', posts, .finished true (.ok m'.token))
    | (m', some e) => (m', posts, .finished true (.error e))
  | .finished posted r => (m, posts, .finished posted r)

/-- Schedule one atomic block: `true` runs caller A's next block,
`false` runs B's. -/
def scheduleStep (now_ms : Int) (resp : TokenResponse) (pick : Bool) (s : TwoCallState) :
    TwoCallState :=
  if pick then
    let step := stepTask now_ms resp s.mgr s.posts s.taskA
    { mgr := step.1, posts := step.2.1, taskA := step.2.2, taskB := s.taskB }
  else
    let step := stepTask now_ms resp s.mgr s.posts s.taskB
    { mgr := step.1, posts := step.2.1, taskA := s.taskA, taskB := step.2.2 }

/-- Run a schedule of atomic blocks. -/
def runSchedule (now_ms : Int) (resp : TokenResponse) : List Bool → TwoCallState → TwoCallState
  | [], s => s
  | pick :: rest, s => runSchedule now_ms resp rest (scheduleStep now_ms resp pick s)

/-- Number of POSTs a caller in this phase has issued so far. -/
def TaskPhase.postCount : TaskPhase → Nat
  | .ready => 0
  | .fetching => 1
  | .finished posted _ => if posted then 1 else 0

/-! ## String helpers shared by several components -/

/-- Lower-casing of the ASCII letters, as both Python's `str.lower` and
`re.IGNORECASE` behave on the ASCII header names involved here (non-ASCII
case folding is outside the modelled fragment). -/
def asciiLower (c : Char) : Char :=
  if 'A' ≤ c ∧ c ≤ 'Z' then Char.ofNat (c.toNat + 32) else c

/-- Python whitespace recognised by `str.strip()` / `str.split()`
(restricted to the ASCII whitespace characters). -/
def isPyWs (c : Char) : Bool :=
  c = ' ' ∨ c = '\t' ∨ c = '\n' ∨ c = '\r' ∨ c = Char.ofNat 11 ∨ c = Char.ofNat 12

/-- Python `str.strip()` on a character list. -/
def pyStripList (cs : List Char) : List Char :=
  ((cs.dropWhile isPyWs).reverse.dropWhile isPyWs).reverse

/-- Python `str.strip()`. -/
def pyStrip (s : String) : String := String.mk (pyStripList s.data)

/-- Helper bound for termination of the scanners below. -/
theorem dropWhile_length_le (p : Char → Bool) (l : List Char) :
    (l.dropWhile p).length ≤ l.length := by
  induction l with
  | nil => simp [List.dropWhile]
  | cons c rest ih =>
    simp only [List.dropWhile]
    split
    · exact Nat.le_succ_of_le ih
    · exact Nat.le_refl _

/-- Python `str.splitlines()` restricted to the terminators `"\n"`,
`"\r\n"` and `"\r"` (the SSE transcripts at issue contain only these).
A trailing terminator produces no extra empty line; `""` yields `[]`. -/
def splitlinesGo : List Char → List Char → List (List Char)
  | [], acc => [acc.reverse]
  | '\r' :: '\n' :: rest, acc =>
    acc.reverse :: (if rest.isEmpty then [] else splitlinesGo rest [])
  | '\n' :: rest, acc =>
    acc.reverse :: (if rest.isEmpty then [] else splitlinesGo rest [])
  | '\r' :: rest, acc =>
    acc.reverse :: (if rest.isEmpty then [] else splitlinesGo rest [])
  | c :: rest, acc => splitlinesGo rest (c :: acc)

/-- Python `str.splitlines()` (see `splitlinesGo`). -/
def splitlines (cs : List Char) : List (List Char) :=
  if cs.isEmpty then [] else splitlinesGo cs []

/-- Python `str.replace(pat, rep)`: replace every non-overlapping
occurrence, scanning left to right.  (An empty `pat` behaves differently
in Python; all patterns used by the code are non-empty.) -/
def replaceAll (pat rep : List Char) : List Char → List Char
  | [] => []
  | c :: rest =>
    if pat ≠ [] ∧ pat.isPrefixOf (c :: rest) then
      rep ++ replaceAll pat rep (List.drop (pat.length - 1) rest)
    else
      c :: replaceAll pat rep rest
termination_by cs => cs.length
decreasing_by
  · simp only [List.length_cons]
    have := List.length_drop (pat.length - 1) rest
    omega
  · simp

/-- Python `s.split(sep, 1)` summarised as: `none` when `sep` does not
occur (the one-element split), otherwise the pieces before and after the
first occurrence. -/
def pySplitOnce (sep : Char) (cs : List Char) : Option (List Char × List Char) :=
  if cs.contains sep then
    some (cs.takeWhile (fun c => c ≠ sep), (cs.dropWhile (fun c => c ≠ sep)).tail)
  else none

/-! ## Environment-variable expansion (`os.path.expandvars`)

`LlmHub.load_providers` (`app/services/llm_hub.py`) runs
`os.path.expandvars` over each registry file's text before `json.loads`.
The POSIX implementation scans for the regex `\$(\w+|\{[^}]*\})`
(ASCII-only `\w`); a defined name is replaced by its value, which is not
rescanned; an undefined name is left verbatim and scanning resumes after
it. -/

/-- `\w` under `re.ASCII`. -/
def isWordChar (c : Char) : Bool :=
  ('a' ≤ c ∧ c ≤ 'z') ∨ ('A' ≤ c ∧ c ≤ 'Z') ∨ ('0' ≤ c ∧ c ≤ '9') ∨ c = '_'

/-- Length bound supporting the scanner's termination. -/
theorem pySplitOnce_snd_lt (sep : Char) (cs a b : List Char)
    (h : pySplitOnce sep cs = some (a, b)) : b.length < cs.length := by
  unfold pySplitOnce at h
  split at h
  case isTrue hmem =>
    have hb : b = (cs.dropWhile (fun c => c ≠ sep)).tail := by
      injection h with hpair
      injection hpair with h1 h2
      exact h2.symm
    have hdw : cs.dropWhile (fun c => c ≠ sep) ≠ [] := by
      intro hnil
      rw [List.dropWhile_eq_nil_iff] at hnil
      have := hnil sep (by simpa using hmem)
      simp at this
    rcases hd : cs.dropWhile (fun c => c ≠ sep) with _ | ⟨x, xs⟩
    · exact absurd hd hdw
    · have hle := dropWhile_length_le (fun c => decide (c ≠ sep)) cs
      rw [hd] at hle
      rw [hb, hd]
      simp only [List.length_cons] at hle
      simp only [List.tail_cons]
      omega
  case isFalse _ => exact absurd h (by simp)

/-- The scan loop of `posixpath.expandvars`, over an environment `env`.
A `$` followed by `{` looks for the first closing `}` (`pySplitOnce`, the
regex piece `\{[^}]*\}`); a `$` followed by a word character takes the
maximal `\w+` run; a defined name is replaced by its value (which is not
rescanned), an undefined one is left verbatim. -/
def expandScan (env : String → Option String) : List Char → List Char
  | [] => []
  | c :: rest =>
    if c = '$' then
      match rest with
      | [] => ['$']
      | c2 :: rest2 =>
        if c2 = '{' then
          match hsp : pySplitOnce '}' rest2 with
          | some (name, tail) =>
            match env (String.mk name) with
            | some v => v.data ++ expandScan env tail
            | none => '$' :: '{' :: (name ++ '}' :: expandScan env tail)
          | none =>
            -- no closing brace: the regex does not match at this position
            '$' :: expandScan env (c2 :: rest2)
        else if isWordChar c2 then
          match env (String.mk ((c2 :: rest2).takeWhile isWordChar)) with
          | some v => v.data ++ expandScan env ((c2 :: rest2).dropWhile isWordChar)
          | none =>
            '$' :: (((c2 :: rest2).takeWhile isWordChar) ++
              expandScan env ((c2 :: rest2).dropWhile isWordChar))
        else '$' :: expandScan env (c2 :: rest2)
    else c :: expandScan env rest
termination_by cs => cs.length
decreasing_by
  · have h1 := pySplitOnce_snd_lt '}' _ _ _ hsp
    simp only [List.length_cons] at h1 ⊢
    omega
  · simp
  · exact lt_of_le_of_lt (dropWhile_length_le _ _)
      (by simp only [List.length_cons]; omega)
  · simp
  · simp

/-- `os.path.expandvars` (POSIX), as used on registry file contents. -/
def expandvars (env : String → Option String) (s : String) : String :=
  String.mk (expandScan env s.data)

/-! ## Header redaction (`app/core/security.py`) -/

/-- `_SENSITIVE_HEADER_PATTERNS`. -/
def sensitiveHeaderNames : List String :=
  ["authorization", "x-api-key", "x-token", "cookie", "set-cookie", "proxy-authorization"]

/-- `_SENSITIVE_RE.fullmatch(key)`: the alternation of the escaped literal
names under `re.IGNORECASE` full-matches `key` iff `key` equals one of the
names up to ASCII case. -/
def isSensitiveHeader (key : String) : Bool :=
  sensitiveHeaderNames.any (fun p => key.data.map asciiLower = p.data)

/-- `_redact_value`. -/
def redactValue (value : String) : String :=
  if value.length ≤ 4 then "[REDACTED]"
  else String.mk (value.data.take 4) ++ "...[REDACTED]"

/-- `redact_headers`: build a fresh header map, masking the values of
sensitive keys.  Headers are modelled as an insertion-ordered list of
key/value pairs (a Python `dict`). -/
def redact_headers (headers : List (String × String)) : List (String × String) :=
  match headers with
  | [] => []
  | (k, v) :: rest =>
    (k, if isSensitiveHeader k then redactValue v else v) :: redact_headers rest

/-! ## JSON values (`json.loads` / `json.dumps`)

The proxy parses and re-serialises JSON with Python's `json` module.  The
modelled fragment covers null, booleans, integers, strings, arrays and
objects (Python `dict`s: insertion-ordered, unique keys, later duplicate
keys overwrite in place).  JSON floats, `NaN`/`Infinity` and lone
surrogate escapes are outside the modelled fragment (the parser rejects
them). -/

inductive Json where
  | null
  | bool (b : Bool)
  | num (n : Int)
  | str (s : String)
  | arr (elems : List Json)
  | obj (fields : List (String × Json))
  deriving Repr

/-- Python `dict.__setitem__`: overwrite in place if the key exists,
else append. -/
def dictInsert (fs : List (String × Json)) (k : String) (v : Json) : List (String × Json) :=
  if fs.any (fun p => p.1 = k) then fs.map (fun p => if p.1 = k then (k, v) else p)
  else fs ++ [(k, v)]

/-- Python `dict` lookup (`d[k]` / successful `d.get(k)`). -/
def dictGet (fs : List (String × Json)) (k : String) : Option Json :=
  (fs.find? (fun p => p.1 = k)).map (fun p => p.2)

/-- Python `j == s` for a JSON value against a string: true only for an
equal string. -/
def pyEqStr (j : Json) (s : String) : Bool :=
  match j with
  | .str t => t = s
  | _ => false

/-- JSON whitespace accepted between tokens. -/
def isJsonWs (c : Char) : Bool := c = ' ' ∨ c = '\t' ∨ c = '\n' ∨ c = '\r'

def skipWs (cs : List Char) : List Char := cs.dropWhile isJsonWs

def hexVal (c : Char) : Option Nat :=
  let n := c.toNat
  if 48 ≤ n ∧ n ≤ 57 then some (n - 48)
  else if 97 ≤ n ∧ n ≤ 102 then some (n - 87)
  else if 65 ≤ n ∧ n ≤ 70 then some (n - 55)
  else none

/-- Parse the remainder of a JSON string literal (after the opening
quote), decoding the standard escapes; unescaped control characters are
rejected (`json.loads` runs in strict mode). -/
def parseStringBody : List Char → Option (List Char × List Char)
  | [] => none
  | '"' :: rest => some ([], rest)
  | '\\' :: esc =>
    match esc with
    | '"' :: r => (parseStringBody r).map (fun p => ('"' :: p.1, p.2))
    | '\\' :: r => (parseStringBody r).map (fun p => ('\\' :: p.1, p.2))
    | '/' :: r => (parseStringBody r).map (fun p => ('/' :: p.1, p.2))
    | 'b' :: r => (parseStringBody r).map (fun p => (Char.ofNat 8 :: p.1, p.2))
    | 'f' :: r => (parseStringBody r).map (fun p => (Char.ofNat 12 :: p.1, p.2))
    | 'n' :: r => (parseStringBody r).map (fun p => ('\n' :: p.1, p.2))
    | 'r' :: r => (parseStringBody r).map (fun p => ('\r' :: p.1, p.2))
    | 't' :: r => (parseStringBody r).map (fun p => ('\t' :: p.1, p.2))
    | 'u' :: h1 :: h2 :: h3 :: h4 :: r =>
      match hexVal h1, hexVal h2, hexVal h3, hexVal h4 with
      | some a, some b, some c, some d =>
        let n := a * 4096 + b * 256 + c * 16 + d
        if 0xd800 ≤ n ∧ n ≤ 0xdbff then
          match r with
          | '\\' :: 'u' :: g1 :: g2 :: g3 :: g4 :: r2 =>
            match hexVal g1, hexVal g2, hexVal g3, hexVal g4 with
            | some a2, some b2, some c2, some d2 =>
              let m := a2 * 4096 + b2 * 256 + c2 * 16 + d2
              if 0xdc00 ≤ m ∧ m ≤ 0xdfff then
                (parseStringBody r2).map
                  (fun p =>
                    (Char.ofNat (0x10000 + (n - 0xd800) * 1024 + (m - 0xdc00)) :: p.1, p.2))
              else none
            | _, _, _, _ => none
          | _ => none
        else if 0xdc00 ≤ n ∧ n ≤ 0xdfff then none
        else (parseStringBody r).map (fun p => (Char.ofNat n :: p.1, p.2))
      | _, _, _, _ => none
    | _ => none
  | c :: rest =>
    if c.toNat < 0x20 then none
    else (parseStringBody rest).map (fun p => (c :: p.1, p.2))

/-- Decimal value of a digit run, most significant first. -/
def digitsVal : List Char → Nat → Nat
  | [], acc => acc
  | d :: ds, acc => digitsVal ds (10 * acc + (d.toNat - 48))

/-- Parse a JSON integer (floats are outside the modelled fragment). -/
def parseNumber (cs : List Char) : Option (Json × List Char) :=
  let neg : Bool := match cs with | '-' :: _ => true | _ => false
  let cs1 := if neg then cs.tail else cs
  match cs1 with
  | c :: _ =>
    if c.isDigit then
      let digits := cs1.takeWhile Char.isDigit
      let rest := cs1.dropWhile Char.isDigit
      if 1 < digits.length ∧ digits.head? = some '0' then none
      else
        match rest with
        | '.' :: _ => none
        | 'e' :: _ => none
        | 'E' :: _ => none
        | _ =>
          let n : Nat := digitsVal digits 0
          some (.num (if neg then -(n : Int) else (n : Int)), rest)
    else none
  | [] => none

mutual

/-- Recursive-descent JSON value parser.  The fuel argument only bounds
the recursion depth; `loads` passes `length + 1`, which always suffices
because every recursive call consumes at least one input character. -/
def parseValue : Nat → List Char → Option (Json × List Char)
  | 0, _ => none
  | fuel + 1, cs =>
    match skipWs cs with
    | 'n' :: 'u' :: 'l' :: 'l' :: rest => some (.null, rest)
    | 't' :: 'r' :: 'u' :: 'e' :: rest => some (.bool true, rest)
    | 'f' :: 'a' :: 'l' :: 's' :: 'e' :: rest => some (.bool false, rest)
    | '"' :: rest => (parseStringBody rest).map (fun p => (.str (String.mk p.1), p.2))
    | '[' :: rest =>
      match skipWs rest with
      | ']' :: r2 => some (.arr [], r2)
      | r2 => (parseElems fuel r2).map (fun p => (.arr p.1, p.2))
    | '{' :: rest =>
      match skipWs rest with
      | '}' :: r2 => some (.obj [], r2)
      | r2 => (parseFields fuel [] r2).map (fun p => (.obj p.1, p.2))
    | cs2 => parseNumber cs2

/-- Array elements after the opening bracket (nonempty case). -/
def parseElems : Nat → List Char → Option (List Json × List Char)
  | 0, _ => none
  | fuel + 1, cs =>
    match parseValue fuel cs with
    | none => none
    | some (v, r) =>
      match skipWs r with
      | ',' :: r2 => (parseElems fuel r2).map (fun p => (v :: p.1, p.2))
      | ']' :: r2 => some ([v], r2)
      | _ => none

/-- Object members after the opening brace (nonempty case), building the
dict with `dictInsert` so that duplicate keys behave as in Python. -/
def parseFields :
    Nat → List (String × Json) → List Char → Option (List (String × Json) × List Char)
  | 0, _, _ => none
  | fuel + 1, acc, cs =>
    match skipWs cs with
    | '"' :: rest =>
      match parseStringBody rest with
      | none => none
      | some (k, r) =>
        match skipWs r with
        | ':' :: r2 =>
          match parseValue fuel r2 with
          | none => none
          | some (v, r3) =>
            let acc2 := dictInsert acc (String.mk k) v
            match skipWs r3 with
            | ',' :: r4 => parseFields fuel acc2 r4
            | '}' :: r4 => some (acc2, r4)
            | _ => none
        | _ => none
    | _ => none

end

/-- `json.loads` on the modelled fragment. -/
def loads (s : String) : Option Json :=
  match parseValue (s.data.length + 1) s.data with
  | some (v, rest) => if (skipWs rest).isEmpty then some v else none
  | none => none

def hexDigitLower (n : Nat) : Char :=
  if n < 10 then Char.ofNat ('0'.toNat + n) else Char.ofNat ('a'.toNat + n - 10)

def uEscape (n : Nat) : List Char :=
  ['\\', 'u', hexDigitLower (n / 4096 % 16), hexDigitLower (n / 256 % 16),
   hexDigitLower (n / 16 % 16), hexDigitLower (n % 16)]

/-- `json.dumps` character escaping with `ensure_ascii=True` (the
default): two-character escapes for the usual controls, `\uXXXX` for all
other characters outside `0x20..0x7e`, surrogate pairs above `0xffff`. -/
def escapeChar (c : Char) : List Char :=
  if c = '"' then ['\\', '"']
  else if c = '\\' then ['\\', '\\']
  else if c = '\n' then ['\\', 'n']
  else if c = '\r' then ['\\', 'r']
  else if c = '\t' then ['\\', 't']
  else if c.toNat = 8 then ['\\', 'b']
  else if c.toNat = 12 then ['\\', 'f']
  else if 0x20 ≤ c.toNat ∧ c.toNat ≤ 0x7e then [c]
  else if c.toNat < 0x10000 then uEscape c.toNat
  else
    uEscape (0xd800 + (c.toNat - 0x10000) / 1024) ++
      uEscape (0xdc00 + (c.toNat - 0x10000) % 1024)

def quoteJson (s : String) : List Char :=
  '"' :: (s.data.flatMap escapeChar) ++ ['"']

def joinComma : List (List Char) → List Char
  | [] => []
  | [x] => x
  | x :: rest => x ++ ',' :: ' ' :: joinComma rest

mutual

/-- `json.dumps` with the default separators `", "` and `": "`. -/
def dumps : Json → List Char
  | .null => "null".data
  | .bool true => "true".data
  | .bool false => "false".data
  | .num n => (toString n).data
  | .str s => quoteJson s
  | .arr l => '[' :: (joinComma (dumpsList l) ++ [']'])
  | .obj fs => '{' :: (joinComma (dumpsFields fs) ++ ['}'])

def dumpsList : List Json → List (List Char)
  | [] => []
  | j :: rest => dumps j :: dumpsList rest

def dumpsFields : List (String × Json) → List (List Char)
  | [] => []
  | (k, v) :: rest => (quoteJson k ++ ':' :: ' ' :: dumps v) :: dumpsFields rest

end

/-- `json.dumps` producing a `String`. -/
def jdumps (j : Json) : String := String.mk (dumps j)

/-- Substring test, Python `pat in s` for strings. -/
def listIsInfix (pat : List Char) : List Char → Bool
  | [] => pat.isEmpty
  | c :: rest => pat.isPrefixOf (c :: rest) || listIsInfix pat rest

/-- Python `k in j` for a parsed JSON value: key membership for objects,
element equality for arrays, substring for strings; numbers, booleans and
null raise `TypeError` (`none`). -/
def pyIn (k : String) (j : Json) : Option Bool :=
  match j with
  | .obj fs => some (fs.any (fun p => p.1 = k))
  | .arr l => some (l.any (fun e => pyEqStr e k))
  | .str s => some (listIsInfix k.data s.data)
  | _ => none

/-! ## Model-version reformat (`app/core/proxy.py`, `_parse_model_version`) -/

/-- `_parse_model_version`: split once on `:`; `None` without a colon;
otherwise rewrite the name with Python `str.replace` (which replaces every
occurrence) or append the base suffix, and return `{"version": ...}`. -/
def parse_model_version (model_string : String) : Option Json :=
  match pySplitOnce ':' model_string.data with
  | none => none
  | some (name, version) =>
    let name2 :=
      if "-Pro".data.isSuffixOf name then
        replaceAll "-Pro".data "-90b-128k-base".data name
      else if "-Max".data.isSuffixOf name then
        replaceAll "-Max".data "-38b-128k-base".data name
      else name ++ "-9b-128k-base".data
    some (.obj [("version", .str (String.mk (name2 ++ ':' :: version)))])

/-! ## Body model rewrite (`app/core/proxy.py`, `_strip_model_prefix`)

The Python function takes the raw request body bytes; the code only ever
treats them as UTF-8 JSON text, so the body is modelled as a `String`.
`json.JSONDecodeError` and the `AttributeError` from calling `.get` on a
non-dict value are both caught and return the body unchanged. -/

def _strip_model_prefix (body : String) (original_model stripped_model : String) : String :=
  match loads body with
  | some (Json.obj fs) =>
    if (match dictGet fs "model" with
        | some v => pyEqStr v original_model
        | none => false) then
      jdumps (Json.obj (dictInsert fs "model" (Json.str stripped_model)))
    else body
  | _ => body

/-! ## Token-usage metrics (`app/services/metrics_callback_handler.py`
and `app/core/proxy.py`, `_emit_streaming_metrics`)

The three Prometheus counters `llm_total_token_usage`,
`llm_prompt_token_usage`, `llm_completion_token_usage` are modelled by
the list of label/amount increments performed, in order.  `Counter.inc`
raises on a non-numeric or negative amount. -/

inductive CounterKind where
  | total
  | promptK
  | completion
  deriving Repr, DecidableEq

/-- The label set `{type, name, group_id, model}`.  `model` is whatever
value the response carried (a string in every well-formed response). -/
structure TokenLabels where
  type : String
  name : String
  group_id : String
  model : Json
  deriving Repr

structure CounterInc where
  kind : CounterKind
  labels : TokenLabels
  amount : Int
  deriving Repr

/-- Python `dict.get(k, default)` on a JSON value; `none` models the
`AttributeError` raised when the value is not a dict. -/
def pyDictGetD (j : Json) (k : String) (d : Json) : Option Json :=
  match j with
  | .obj fs => some ((dictGet fs k).getD d)
  | _ => none

/-- The amount `Counter.inc` accepts: integers (Python `bool` is an
`int`: `True` counts 1); anything else raises. -/
def incAmount (j : Json) : Option Int :=
  match j with
  | .num n => some n
  | .bool b => some (if b then 1 else 0)
  | _ => none

/-- Perform one `counter.labels(**labels).inc(amount)`:
`none` when `inc` raises (non-numeric or negative amount). -/
def incCounter (kind : CounterKind) (labels : TokenLabels) (amountJ : Json) :
    Option CounterInc :=
  match incAmount amountJ with
  | some n => if 0 ≤ n then some ⟨kind, labels, n⟩ else none
  | none => none

/-- `MetricsCallbackHandler.on_llm_end` on a parsed JSON response (the
branch for LangChain `LLMResult` objects carrying `llm_output` cannot
arise on the proxy path, where `response` is a plain parsed dict).
Returns the increments performed in order and whether an exception was
raised part-way (swallowed by the callers' `try`). -/
def on_llm_end (chain_type chain_name group_id : String) (response : Json) :
    List CounterInc × Bool :=
  let dictBranch : Option (Json × Json × Json × Json) :=
    match response with
    | .obj fs =>
      if fs.any (fun p => p.1 = "usage") ∧ fs.any (fun p => p.1 = "model") then
        let token_usage := (dictGet fs "usage").getD (.obj [])
        let model_name := (dictGet fs "model").getD (.str "unknown")
        match pyDictGetD token_usage "total_tokens" (.num 0),
            pyDictGetD token_usage "prompt_tokens" (.num 0),
            pyDictGetD token_usage "completion_tokens" (.num 0) with
        | some t, some p, some c => some (model_name, t, p, c)
        | _, _, _ => none
      else some (.str "unknown", .num 0, .num 0, .num 0)
    | _ => some (.str "unknown", .num 0, .num 0, .num 0)
  match dictBranch with
  | none => ([], true)  -- AttributeError while reading token_usage fields
  | some (model_name, t, p, c) =>
    let labels : TokenLabels :=
      { type := chain_type, name := chain_name, group_id := group_id, model := model_name }
    match incCounter .total labels t with
    | none => ([], true)
    | some it =>
      match incCounter .promptK labels p with
      | none => ([it], true)
      | some ip =>
        match incCounter .completion labels c with
        | none => ([it, ip], true)
        | some ic => ([it, ip, ic], false)

/-- The line-selection loop of `_emit_streaming_metrics`: strip each line,
keep the payload of the last stripped line that starts with `data:` and
is not `data: [DONE]`; the kept payload is the text after `data:`,
stripped. -/
def selectLastData (text : List Char) : Option (List Char) :=
  (splitlines text).foldl
    (fun acc line =>
      let stripped := pyStripList line
      if "data:".data.isPrefixOf stripped ∧ stripped ≠ "data: [DONE]".data then
        some (pyStripList (stripped.drop 5))
      else acc)
    none

/-- `_emit_streaming_metrics`, restricted to its effect on the token
counters (the `trace_proxy_request` sink is outside the modelled core).
`group_id` is the request's `X-Group-Id` header or `"unknown"`.  The
enclosing `try` swallows every exception, so a failed JSON parse, a
`TypeError` from `"usage" in last_payload`, or a partial `on_llm_end`
leaves only the increments already performed. -/
def _emit_streaming_metrics (chunks : List String) (group_id : String) : List CounterInc :=
  match selectLastData (String.join chunks).data with
  | none => []
  | some payload =>
    if payload.isEmpty then []  -- `if last_data:` — the empty payload is falsy
    else
      match loads (String.mk payload) with
      | none => []
      | some j =>
        match pyIn "usage" j with
        | none => []
        | some false => []
        | some true => (on_llm_end "prompt" "proxy" group_id j).1

/-- The claim's own reading of the line selection (for comparison with
the implementation): the raw lines that start with `data:` and are not
equal to `data: [DONE]`, without whitespace stripping. -/
def selectLastDataClaim (text : List Char) : Option (List Char) :=
  (splitlines text).foldl
    (fun acc line =>
      if "data:".data.isPrefixOf line ∧ line ≠ "data: [DONE]".data then
        some (pyStripList (line.drop 5))
      else acc)
    none

/-- Metrics extraction as the claim words it, differing from
`_emit_streaming_metrics` only in using `selectLastDataClaim`. -/
def emitStreamingMetricsClaim (chunks : List String) (group_id : String) : List CounterInc :=
  match selectLastDataClaim (String.join chunks).data with
  | none => []
  | some payload =>
    if payload.isEmpty then []
    else
      match loads (String.mk payload) with
      | none => []
      | some j =>
        match pyIn "usage" j with
        | none => []
        | some false => []
        | some true => (on_llm_end "prompt" "proxy" group_id j).1

/-! ## Helper lemmas -/

theorem record_failure_threshold (cb : CircuitBreaker) (now : ℚ) :
    ((cb.record_failure now).1).failure_threshold = cb.failure_threshold := by
  simp only [CircuitBreaker.record_failure]
  split <;> rfl

theorem record_failure_zero (cb : CircuitBreaker) (h : cb.failure_threshold = 0) (now : ℚ) :
    (cb.record_failure now).2 = false := by
  simp [CircuitBreaker.record_failure, h]

theorem CBOp_apply_is_open_zero (cb : CircuitBreaker) (op : CBOp)
    (h0 : cb.failure_threshold = 0) (h1 : cb.is_open = false) :
    (CBOp.apply cb op).is_open = false ∧ (CBOp.apply cb op).failure_threshold = 0 := by
  cases op with
  | check now => exact ⟨h1, h0⟩
  | success => exact ⟨h1, h0⟩
  | failure now =>
    constructor
    · simp [CBOp.apply, CircuitBreaker.record_failure, h0, h1]
    · simpa [CBOp.apply, record_failure_threshold] using h0

theorem runOps_is_open_zero (ops : List CBOp) :
    ∀ (cb : CircuitBreaker), cb.failure_threshold = 0 → cb.is_open = false →
      (cb.runOps ops).is_open = false := by
  induction ops with
  | nil => intro cb _ h1; exact h1
  | cons op rest ih =>
    intro cb h0 h1
    obtain ⟨ho, ht⟩ := CBOp_apply_is_open_zero cb op h0 h1
    exact ih (CBOp.apply cb op) ht ho

/-! ## C1 -/

/-- C1 (amended): the admission check `check_open` denies (returns `true`)
exactly when the breaker is open and `now - open_time < recovery_time`,
and it never mutates the breaker: in particular, when the breaker is open
and the recovery time has elapsed the request is admitted but `is_open`
and the failure list are left unchanged — no reset occurs. -/
theorem C1_check_open_no_reset :
    ∀ (cb : CircuitBreaker) (now : ℚ),
      ((cb.check_open now).1 = false ↔
        ¬ (cb.is_open = true ∧ now - cb.open_time < cb.recovery_time))
      ∧ (cb.check_open now).2 = cb := by
  intro cb now
  constructor
  · simp [CircuitBreaker.check_open]
  · rfl

/-- C1 witness: a closed breaker is admitted and left unchanged. -/
theorem C1_check_open_no_reset_witness :
    ((CircuitBreaker.init 0 30 60).check_open 5).1 = false
    ∧ ((CircuitBreaker.init 0 30 60).check_open 5).2 = CircuitBreaker.init 0 30 60 := by
  have h := C1_check_open_no_reset (CircuitBreaker.init 0 30 60) 5
  refine ⟨h.1.mpr ?_, h.2⟩
  simp [CircuitBreaker.init]

/-- C1 counterexample: a breaker that is open with the recovery time
elapsed (`recovery_time = 5`, opened at `0`, now `10`) admits the request
(`check_open` returns `false`), but — contrary to the claim — the
post-state still has `is_open = true` and the failure list is not
cleared. -/
theorem C1_counterexample :
    ((CircuitBreaker.mk 0 5 60 true 0 [1]).check_open 10).1 = false
    ∧ ((CircuitBreaker.mk 0 5 60 true 0 [1]).check_open 10).2.is_open = true
    ∧ ((CircuitBreaker.mk 0 5 60 true 0 [1]).check_open 10).2.failure_timestamps ≠ [] := by
  refine ⟨?_, rfl, by simp [CircuitBreaker.check_open]⟩
  simp [CircuitBreaker.check_open]
  norm_num

/-! ## C4 -/

/-- C4 (amended): with `failure_threshold = 0` the breaker never opens
under any finite operation sequence; `record_failure` returns `true` iff
the threshold is positive and the retained failure count reaches it,
where the retained timestamps are those with `now - window_size < ts`
(the code also prunes a timestamp exactly `window_size` old, which the
claim's strict "older than window_size" would keep); on activation it
sets `is_open = true` and `open_time = now`. -/
theorem C4_record_failure_characterisation :
    ∀ (cb : CircuitBreaker) (ops : List CBOp) (now : ℚ),
      (cb.failure_threshold = 0 → cb.is_open = false → (cb.runOps ops).is_open = false)
      ∧ ((cb.record_failure now).2 = true ↔
          0 < cb.failure_threshold ∧
            cb.failure_threshold ≤
              (((cb.failure_timestamps ++ [now]).filter
                (fun t => now - cb.window_size < t)).length : Int))
      ∧ ((cb.record_failure now).2 = true →
          (cb.record_failure now).1.is_open = true ∧ (cb.record_failure now).1.open_time = now)
      ∧ ((cb.record_failure now).1.failure_timestamps =
          (cb.failure_timestamps ++ [now]).filter (fun t => now - cb.window_size < t)) := by
  intro cb ops now
  refine ⟨fun h0 h1 => runOps_is_open_zero ops cb h0 h1, ?_, ?_, ?_⟩
  · simp only [CircuitBreaker.record_failure]
    split
    case isTrue h => simpa using h
    case isFalse h => simpa using h
  · intro h
    simp only [CircuitBreaker.record_failure] at h ⊢
    split at h
    case isTrue hcond => simp_all
    case isFalse hcond => simp_all
  · simp only [CircuitBreaker.record_failure]
    split <;> rfl

/-- C4 witness: a breaker with threshold 2, window 60 and one failure at
time `50` activates on a second failure at time `100` with
`open_time = 100`; and a zero-threshold breaker stays closed through a
check/failure/success sequence. -/
theorem C4_record_failure_characterisation_witness :
    ((CircuitBreaker.mk 2 30 60 false 0 [50]).record_failure 100).2 = true
    ∧ ((CircuitBreaker.mk 2 30 60 false 0 [50]).record_failure 100).1.open_time = 100
    ∧ ((CircuitBreaker.init 0 30 60).runOps
        [.check 1, .failure 2, .failure 3, .success, .failure 4]).is_open = false := by
  have h100 := C4_record_failure_characterisation (CircuitBreaker.mk 2 30 60 false 0 [50])
    [] 100
  have hact : ((CircuitBreaker.mk 2 30 60 false 0 [50]).record_failure 100).2 = true := by
    refine h100.2.1.mpr ⟨by norm_num, ?_⟩
    norm_num
  have hz := C4_record_failure_characterisation (CircuitBreaker.init 0 30 60)
    [.check 1, .failure 2, .failure 3, .success, .failure 4] 0
  exact ⟨hact, ((h100.2.2.1 hact).2), hz.1 rfl rfl⟩

/-- C4 counterexample: the claim's pruning rule keeps a timestamp exactly
`window_size` old.  For the breaker `(threshold 2, window 60, failures
[40])` at `now = 100`, the claim's retained set is `[40, 100]` (size 2,
reaching the threshold, so the claim's iff demands activation), but the
code prunes `40` and `record_failure` returns `false`. -/
theorem C4_counterexample :
    ((CircuitBreaker.mk 2 30 60 false 0 [40]).record_failure 100).2 = false
    ∧ (((([40, 100] : List ℚ).filter (fun t => (100 : ℚ) - 60 ≤ t)).length : Int) = 2
        ∧ 0 < (2 : Int)) := by
  constructor
  · simp [CircuitBreaker.record_failure]
    norm_num
  · constructor
    · norm_num
    · norm_num

/-! ## C2 -/

theorem retryLoop_all500 {α : Type} (calls : Nat → CallResult α) (times : Nat → ℚ)
    (ra : Nat → Option Int) (bodies : Nat → α)
    (hcalls : ∀ i, calls i = .response 500 (ra i) (bodies i)) :
    ∀ (fuel : Nat), ∀ (attempt : Nat) (cb : CircuitBreaker), cb.failure_threshold = 0 →
      ∀ (ls : Int) (lb : Option α), ∃ cb',
        retryLoop calls times fuel attempt cb ls lb =
          (.exhausted (if fuel = 0 then ls else 500)
            (if fuel = 0 then lb else some (bodies (attempt + fuel - 1))), cb', fuel) := by
  intro fuel
  induction fuel with
  | zero => intro attempt cb _ ls lb; exact ⟨cb, rfl⟩
  | succ n ih =>
    intro attempt cb h ls lb
    have hz := record_failure_zero cb h (times attempt)
    have ht := record_failure_threshold cb (times attempt)
    rw [h] at ht
    obtain ⟨cb', hcb'⟩ :=
      ih (attempt + 1) ((cb.record_failure (times attempt)).1) ht 500 (some (bodies attempt))
    refine ⟨cb', ?_⟩
    rw [retryLoop, hcalls attempt]
    simp only [reduceIte, hz, Bool.false_eq_true, if_false, hcb']
    rcases Nat.eq_zero_or_pos n with hn | hn
    · subst hn; simp
    · have hne : n ≠ 0 := Nat.pos_iff_ne_zero.mp hn
      have harith : attempt + 1 + n - 1 = attempt + (n + 1) - 1 := by omega
      simp [hne, harith]

theorem retryLoop_allErr {α : Type} (calls : Nat → CallResult α) (times : Nat → ℚ)
    (eb : Nat → α)
    (hcalls : ∀ i, calls i = .connectError (eb i) ∨ calls i = .requestError (eb i)) :
    ∀ (fuel : Nat), ∀ (attempt : Nat) (cb : CircuitBreaker), cb.failure_threshold = 0 →
      ∀ (ls : Int) (lb : Option α), ∃ cb',
        retryLoop calls times fuel attempt cb ls lb =
          (.exhausted ls (if fuel = 0 then lb else some (eb (attempt + fuel - 1))), cb', fuel) := by
  intro fuel
  induction fuel with
  | zero => intro attempt cb _ ls lb; exact ⟨cb, rfl⟩
  | succ n ih =>
    intro attempt cb h ls lb
    have hz := record_failure_zero cb h (times attempt)
    have ht := record_failure_threshold cb (times attempt)
    rw [h] at ht
    obtain ⟨cb', hcb'⟩ :=
      ih (attempt + 1) ((cb.record_failure (times attempt)).1) ht ls (some (eb attempt))
    refine ⟨cb', ?_⟩
    rcases hcalls attempt with hc | hc
    all_goals rw [retryLoop, hc]
    all_goals simp only [hz, Bool.false_eq_true, if_false, hcb']
    all_goals rcases Nat.eq_zero_or_pos n with hn | hn
    · subst hn; simp
    · have hne : n ≠ 0 := Nat.pos_iff_ne_zero.mp hn
      have harith : attempt + 1 + n - 1 = attempt + (n + 1) - 1 := by omega
      simp [hne, harith]
    · subst hn; simp
    · have hne : n ≠ 0 := Nat.pos_iff_ne_zero.mp hn
      have harith : attempt + 1 + n - 1 = attempt + (n + 1) - 1 := by omega
      simp [hne, harith]

/-- C2: against the default breaker (failure threshold 0, i.e. disabled,
and initially closed), a thunk that returns HTTP 500 on every invocation
is invoked exactly `1 + max_retries` times, after which the loop returns
the synthetic response carrying the last observed status 500 (a non-2xx
status) and the last error body; if instead every attempt raises a
connection or request error, the returned status is the sentinel 523. -/
theorem C2_retry_termination {α : Type} :
    ∀ (maxRetries : Nat) (cb : CircuitBreaker) (calls : Nat → CallResult α)
      (times : Nat → ℚ) (t0 : ℚ),
      cb.failure_threshold = 0 → cb.is_open = false →
      ((∀ (ra : Nat → Option Int) (bodies : Nat → α),
          (∀ i, calls i = .response 500 (ra i) (bodies i)) →
          ∃ cb', exponential_backoff_retry maxRetries cb calls times t0 =
            (.exhausted 500 (some (bodies maxRetries)), cb', 1 + maxRetries))
        ∧ (∀ (eb : Nat → α),
            (∀ i, calls i = .connectError (eb i) ∨ calls i = .requestError (eb i)) →
            ∃ cb', exponential_backoff_retry maxRetries cb calls times t0 =
              (.exhausted 523 (some (eb maxRetries)), cb', 1 + maxRetries))) := by
  intro maxRetries cb calls times t0 h0 hopen
  have hcheck : (cb.check_open t0).1 = false := by
    simp [CircuitBreaker.check_open, hopen]
  constructor
  · intro ra bodies hcalls
    obtain ⟨cb', hcb'⟩ :=
      retryLoop_all500 calls times ra bodies hcalls (1 + maxRetries) 0 cb h0 523 none
    refine ⟨cb', ?_⟩
    rw [exponential_backoff_retry, hcheck]
    simpa using hcb'
  · intro eb hcalls
    obtain ⟨cb', hcb'⟩ :=
      retryLoop_allErr calls times eb hcalls (1 + maxRetries) 0 cb h0 523 none
    refine ⟨cb', ?_⟩
    rw [exponential_backoff_retry, hcheck]
    simpa using hcb'

/-- C2 witness: `max_retries = 2`, always-500 thunk — exactly 3
invocations, status 500. -/
theorem C2_retry_termination_witness :
    ∃ cb', exponential_backoff_retry 2 (CircuitBreaker.init 0 30 60)
      (fun _ => CallResult.response 500 none "body") (fun _ => 0) 0 =
        (.exhausted 500 (some "body"), cb', 3) := by
  exact (C2_retry_termination 2 (CircuitBreaker.init 0 30 60)
    (fun _ => CallResult.response 500 none "body") (fun _ => 0) 0 rfl rfl).1
    (fun _ => none) (fun _ => "body") (fun _ => rfl)

/-! ## C3 -/

theorem TaskPhase_postCount_le_one (ph : TaskPhase) : ph.postCount ≤ 1 := by
  cases ph with
  | ready => exact Nat.zero_le 1
  | fetching => exact Nat.le_refl 1
  | finished posted r => cases posted <;> simp [TaskPhase.postCount]

theorem stepTask_post_inv (now_ms : Int) (resp : TokenResponse) (m : OIDCTokenManager)
    (posts : Nat) (ph : TaskPhase) :
    (stepTask now_ms resp m posts ph).2.1 + ph.postCount =
      posts + (stepTask now_ms resp m posts ph).2.2.postCount := by
  cases ph with
  | ready =>
    simp only [stepTask]
    split <;> simp [TaskPhase.postCount]
  | fetching =>
    rcases hf : m.fetch_token resp with ⟨m', e⟩
    cases e <;> simp [stepTask, hf, TaskPhase.postCount]
  | finished posted r => simp [stepTask]

theorem scheduleStep_post_inv (now_ms : Int) (resp : TokenResponse) (pick : Bool)
    (s : TwoCallState) :
    (scheduleStep now_ms resp pick s).posts +
        s.taskA.postCount + s.taskB.postCount =
      s.posts + (scheduleStep now_ms resp pick s).taskA.postCount +
        (scheduleStep now_ms resp pick s).taskB.postCount := by
  cases pick
  · have hstep := stepTask_post_inv now_ms resp s.mgr s.posts s.taskB
    simp only [scheduleStep, Bool.false_eq_true, if_false]
    omega
  · have hstep := stepTask_post_inv now_ms resp s.mgr s.posts s.taskA
    simp only [scheduleStep, if_true]
    omega

theorem runSchedule_post_inv (now_ms : Int) (resp : TokenResponse) :
    ∀ (sched : List Bool) (s : TwoCallState),
      (runSchedule now_ms resp sched s).posts +
          s.taskA.postCount + s.taskB.postCount =
        s.posts + (runSchedule now_ms resp sched s).taskA.postCount +
          (runSchedule now_ms resp sched s).taskB.postCount := by
  intro sched
  induction sched with
  | nil => intro s; simp [runSchedule]
  | cons pick rest ih =>
    intro s
    rw [runSchedule]
    have hstep := scheduleStep_post_inv now_ms resp pick s
    have hrec := ih (scheduleStep now_ms resp pick s)
    omega

/-- C3 (amended): `get_token` has no single-flight guard — under any
interleaving of two concurrent calls, the number of upstream POSTs equals
the number of calls that reached the fetch branch (each such call issues
its own POST), and is therefore at most two, not at most one. -/
theorem C3_no_single_flight :
    ∀ (sched : List Bool) (now_ms : Int) (resp : TokenResponse) (m0 : OIDCTokenManager),
      (runSchedule now_ms resp sched ⟨m0, 0, .ready, .ready⟩).posts =
          (runSchedule now_ms resp sched ⟨m0, 0, .ready, .ready⟩).taskA.postCount +
            (runSchedule now_ms resp sched ⟨m0, 0, .ready, .ready⟩).taskB.postCount
      ∧ (runSchedule now_ms resp sched ⟨m0, 0, .ready, .ready⟩).posts ≤ 2 := by
  intro sched now_ms resp m0
  have hinv := runSchedule_post_inv now_ms resp sched ⟨m0, 0, .ready, .ready⟩
  have hA := TaskPhase_postCount_le_one
    (runSchedule now_ms resp sched ⟨m0, 0, .ready, .ready⟩).taskA
  have hB := TaskPhase_postCount_le_one
    (runSchedule now_ms resp sched ⟨m0, 0, .ready, .ready⟩).taskB
  have hr : TaskPhase.postCount .ready = 0 := rfl
  have hp : ({ mgr := m0, posts := 0, taskA := .ready, taskB := .ready } : TwoCallState).posts
      = 0 := rfl
  rw [hr, hp] at hinv
  constructor
  · omega
  · omega

/-- C3 counterexample: with an absent/expired token, the interleaving in
which both calls run their cache check before either refresh completes
issues two upstream POSTs — the claim demands exactly one. -/
theorem C3_counterexample :
    (runSchedule 100 ⟨200, some "tokn", none, some 1000000, none⟩
        [true, false, true, false]
        ⟨OIDCTokenManager.init "u" "c" none, 0, .ready, .ready⟩).posts = 2
    ∧ ¬ ((2 : Nat) = 1)
    ∧ (runSchedule 100 ⟨200, some "tokn", none, some 1000000, none⟩
        [true, false, true, false]
        ⟨OIDCTokenManager.init "u" "c" none, 0, .ready, .ready⟩).taskA =
        .finished true (.ok (some "tokn")) := by
  exact ⟨rfl, by decide, rfl⟩

/-! ## C5 -/

theorem get_token_posted_iff (m : OIDCTokenManager) (now_ms : Int) (resp : TokenResponse) :
    (m.get_token now_ms resp).2.1 = true ↔
      (¬ tokenTruthy m.token = true ∨ m.expires_at ≤ now_ms) := by
  unfold OIDCTokenManager.get_token
  split
  case isTrue h =>
    have h' : tokenTruthy m.token = false ∨ m.expires_at ≤ now_ms := by
      rcases h with h | h
      · exact Or.inl (by simpa using h)
      · exact Or.inr h
    rcases hf : m.fetch_token resp with ⟨m', e⟩
    cases e <;> simpa [hf] using h'
  case isFalse h => simpa using h

/-- C5: `get_token` returns the cached token without issuing an upstream
request iff a (truthy) token is stored and `now_ms < expires_at`;
otherwise it refreshes, and a non-2xx status, a body missing both token
fields, or a body missing both expiry fields raises an error surfaced to
the caller with the cache unchanged (apart from the token assignment that
precedes the missing-token check); a successful refresh stores the
reported expiry minus 20 000 ms and returns the fresh token. -/
theorem C5_get_token :
    ∀ (m : OIDCTokenManager) (now_ms : Int) (resp : TokenResponse),
      ((m.get_token now_ms resp).2.1 = false ↔
        tokenTruthy m.token = true ∧ now_ms < m.expires_at)
      ∧ ((m.get_token now_ms resp).2.1 = false →
          m.get_token now_ms resp = (m, false, .ok m.token))
      ∧ (¬ statusIsSuccess resp.status_code = true →
          (m.get_token now_ms resp).2.1 = true →
          m.get_token now_ms resp = (m, true, .error (.httpStatus resp.status_code)))
      ∧ (statusIsSuccess resp.status_code = true →
          resp.access_token = none → resp.tok = none →
          (m.get_token now_ms resp).2.1 = true →
          m.get_token now_ms resp = ({ m with token := none }, true, .error .missingToken))
      ∧ (statusIsSuccess resp.status_code = true →
          tokenTruthy (pyOrStr resp.access_token resp.tok) = true →
          pyOrInt resp.expires_at resp.exp = none →
          (m.get_token now_ms resp).2.1 = true →
          m.get_token now_ms resp =
            ({ m with token := pyOrStr resp.access_token resp.tok }, true,
              .error .missingExpiry))
      ∧ (∀ e : Int, statusIsSuccess resp.status_code = true →
          tokenTruthy (pyOrStr resp.access_token resp.tok) = true →
          pyOrInt resp.expires_at resp.exp = some e →
          (m.get_token now_ms resp).2.1 = true →
          m.get_token now_ms resp =
            ({ m with token := pyOrStr resp.access_token resp.tok, expires_at := e - 20000 },
              true, .ok (pyOrStr resp.access_token resp.tok))) := by
  intro m now_ms resp
  have hiff := get_token_posted_iff m now_ms resp
  refine ⟨?_, ?_, ?_, ?_, ?_, ?_⟩
  · constructor
    · intro h
      have : ¬ (¬ tokenTruthy m.token = true ∨ m.expires_at ≤ now_ms) := by
        intro hc
        rw [hiff.mpr hc] at h
        exact absurd h (by decide)
      push_neg at this
      exact ⟨by simpa using this.1, by omega⟩
    · intro ⟨h1, h2⟩
      rcases hb : (m.get_token now_ms resp).2.1 with _ | _
      · rfl
      · exact absurd (hiff.mp hb) (by push_neg; exact ⟨by simpa using h1, by omega⟩)
  · intro h
    have hc : ¬ (¬ tokenTruthy m.token = true ∨ m.expires_at ≤ now_ms) := by
      intro hc
      rw [hiff.mpr hc] at h
      exact absurd h (by decide)
    unfold OIDCTokenManager.get_token
    rw [if_neg hc]
  · intro hst hp
    have hc := hiff.mp hp
    unfold OIDCTokenManager.get_token
    rw [if_pos hc]
    unfold OIDCTokenManager.fetch_token
    rw [if_pos (by simpa using hst)]
  · intro hst ha htk hp
    have hc := hiff.mp hp
    unfold OIDCTokenManager.get_token
    rw [if_pos hc]
    unfold OIDCTokenManager.fetch_token
    rw [if_neg (by simpa using hst)]
    simp [ha, htk, pyOrStr, tokenTruthy]
  · intro hst htr hexp hp
    have hc := hiff.mp hp
    unfold OIDCTokenManager.get_token
    rw [if_pos hc]
    unfold OIDCTokenManager.fetch_token
    rw [if_neg (by simpa using hst)]
    rw [if_neg (by simpa using htr)]
    rw [hexp]
  · intro e hst htr hexp hp
    have hc := hiff.mp hp
    unfold OIDCTokenManager.get_token
    rw [if_pos hc]
    unfold OIDCTokenManager.fetch_token
    rw [if_neg (by simpa using hst)]
    rw [if_neg (by simpa using htr)]
    rw [hexp]

/-- C5 witness: a fresh manager (no token) at `now = 100` with a 2xx
reply `{access_token: "t", expires_at: 500000}` posts, stores
`480000 = 500000 - 20000` and returns the fresh token. -/
theorem C5_get_token_witness :
    (OIDCTokenManager.init "u" "c" none).get_token 100
        ⟨200, some "t", none, some 500000, none⟩ =
      (⟨"u", "c", none, some "t", 480000⟩, true, .ok (some "t")) := by
  have h := (C5_get_token (OIDCTokenManager.init "u" "c" none) 100
    ⟨200, some "t", none, some 500000, none⟩).2.2.2.2.2 500000
  exact h (by decide) (by decide) rfl rfl

/-! ## C6 -/

theorem pySplitOnce_append (sep : Char) (a b : List Char) (ha : sep ∉ a) :
    pySplitOnce sep (a ++ sep :: b) = some (a, b) := by
  have hmem : (a ++ sep :: b).contains sep = true := by
    simp [List.contains_eq_any_beq]
  have hpos : ∀ c ∈ a, (fun c => decide (c ≠ sep)) c = true := by
    intro c hc
    simp only [decide_eq_true_eq]
    intro hcs
    exact ha (hcs ▸ hc)
  unfold pySplitOnce
  rw [if_pos hmem]
  rw [List.takeWhile_append_of_pos hpos, List.dropWhile_append_of_pos hpos]
  rw [List.takeWhile_cons_of_neg (by simp), List.dropWhile_cons_of_neg (by simp)]
  simp

theorem expandScan_cons_ne (env : String → Option String) (c : Char) (cs : List Char)
    (hc : c ≠ '$') : expandScan env (c :: cs) = c :: expandScan env cs := by
  cases cs with
  | nil => rw [expandScan.eq_2, if_neg hc]
  | cons c2 rest => rw [expandScan.eq_3, if_neg hc]

theorem expandScan_dollar_brace (env : String → Option String) (name t : List Char)
    (hn : '}' ∉ name) :
    expandScan env ('$' :: '{' :: (name ++ '}' :: t)) =
      (match env (String.mk name) with
       | some v => v.data ++ expandScan env t
       | none => '$' :: '{' :: (name ++ '}' :: expandScan env t)) := by
  rw [expandScan.eq_3]
  rw [if_pos rfl]
  rw [if_pos rfl]
  have hsp := pySplitOnce_append '}' name t hn
  split
  case h_1 name' tail' heq =>
    rw [hsp] at heq
    injection heq with hpair
    injection hpair with h1 h2
    subst h1
    subst h2
    rfl
  case h_2 heq =>
    rw [hsp] at heq
    exact absurd heq (by simp)

theorem expandScan_var (env : String → Option String) (name t : List Char)
    (hn : '}' ∉ name) :
    ∀ (p : List Char), '$' ∉ p →
      expandScan env (p ++ '$' :: '{' :: (name ++ '}' :: t)) =
        p ++ (match env (String.mk name) with
              | some v => v.data
              | none => '$' :: '{' :: (name ++ ['}'])) ++ expandScan env t := by
  intro p
  induction p with
  | nil =>
    intro _
    rw [List.nil_append, expandScan_dollar_brace env name t hn]
    rcases env (String.mk name) with _ | v <;> simp
  | cons c p' ih =>
    intro hp
    have hc : c ≠ '$' := by
      intro h
      exact hp (h ▸ List.mem_cons_self c p')
    have hp' : '$' ∉ p' := fun h => hp (List.mem_cons_of_mem c h)
    rw [List.cons_append, expandScan_cons_ne env c _ hc, ih hp']
    simp

/-- C6 (amended): during provider-registry loading every occurrence of
`${NAME}` in a file's contents is expanded before JSON parsing as
follows: when `NAME` is defined in the environment the occurrence is
replaced by its value (which is not itself rescanned), and when `NAME`
is undefined the occurrence is left verbatim — it does NOT expand to the
empty string. -/
theorem C6_expandvars :
    ∀ (env : String → Option String) (p name t : String),
      '$' ∉ p.data → '}' ∉ name.data →
      (∀ v, env name = some v →
        expandvars env (p ++ "$\x7b" ++ name ++ "\x7d" ++ t) = p ++ v ++ expandvars env t)
      ∧ (env name = none →
        expandvars env (p ++ "$\x7b" ++ name ++ "\x7d" ++ t) =
          p ++ "$\x7b" ++ name ++ "\x7d" ++ expandvars env t) := by
  intro env p name t hp hn
  have hdata : (p ++ "$\x7b" ++ name ++ "\x7d" ++ t).data =
      p.data ++ '$' :: '{' :: (name.data ++ '}' :: t.data) := by
    simp [String.data_append]
  have hname : String.mk name.data = name := rfl
  constructor
  · intro v hv
    apply String.ext
    rw [expandvars, hdata, expandScan_var env name.data t.data hn p.data hp]
    rw [hname, hv]
    simp [String.data_append, expandvars]
  · intro hv
    apply String.ext
    rw [expandvars, hdata, expandScan_var env name.data t.data hn p.data hp]
    rw [hname, hv]
    simp [String.data_append, expandvars]

/-- C6 witness: with `FOO = "bar"` defined, `"x${FOO}y"` expands to
`"xbary"`; with `BAZ` undefined, `"x${BAZ}y"` stays `"x${BAZ}y"`. -/
theorem C6_expandvars_witness :
    expandvars (fun n => if n = "FOO" then some "bar" else none) "x$\x7bFOO\x7dy" = "xbary"
    ∧ expandvars (fun n => if n = "FOO" then some "bar" else none) "x$\x7bBAZ\x7dy" = "x$\x7bBAZ\x7dy" := by
  have hy : expandvars (fun n => if n = "FOO" then some "bar" else none) "y" = "y" := by
    have h1 := expandScan_cons_ne (fun n => if n = "FOO" then some "bar" else none) 'y' []
      (by decide)
    apply String.ext
    rw [expandvars]
    show expandScan _ ('y' :: []) = _
    rw [h1, expandScan]
  have h := C6_expandvars (fun n => if n = "FOO" then some "bar" else none) "x" "FOO" "y"
    (by decide) (by decide)
  have h2 := C6_expandvars (fun n => if n = "FOO" then some "bar" else none) "x" "BAZ" "y"
    (by decide) (by decide)
  constructor
  · have := h.1 "bar" rfl
    rw [hy] at this
    exact this.trans (by decide)
  · have := h2.2 rfl
    rw [hy] at this
    exact this.trans (by decide)

/-- C6 counterexample: with `FOO` undefined, the contents `"${FOO}"`
load as `"${FOO}"` — unchanged — whereas the claim's "undefined names
expand to the empty string" demands `""`. -/
theorem C6_counterexample :
    expandvars (fun _ => none) "$\x7bFOO\x7d" = "$\x7bFOO\x7d"
    ∧ expandvars (fun _ => none) "$\x7bFOO\x7d" ≠ "" := by
  have h : expandScan (fun _ => none) ('$' :: '{' :: ("FOO".data ++ '}' :: [])) =
      '$' :: '{' :: ("FOO".data ++ '}' :: expandScan (fun _ => none) []) := by
    rw [expandScan_dollar_brace (fun _ => none) "FOO".data [] (by decide)]
  rw [expandScan] at h
  constructor
  · apply String.ext
    rw [expandvars]
    exact h.trans (by decide)
  · intro hcontra
    have : ("$\x7bFOO\x7d" : String) = "" := by
      rw [← hcontra]
      apply String.ext
      rw [expandvars]
      exact (h.trans (by decide)).symm
    exact absurd this (by decide)

/-! ## C7 -/

/-- C7 (amended): the model-version reformat splits once on `:` and
returns nil when there is no colon; if the name ends with `"-Pro"`,
EVERY occurrence of `"-Pro"` in the name (not only the trailing one) is
replaced with `"-90b-128k-base"` (Python `str.replace` replaces all
occurrences); else if it ends with `"-Max"`, every occurrence of
`"-Max"` is replaced with `"-38b-128k-base"`; else `"-9b-128k-base"` is
appended; the result is `{"version": "<transformed_name>:<version>"}`. -/
theorem C7_parse_model_version :
    ∀ (name version : String),
      (':' ∉ name.data →
        parse_model_version (name ++ ":" ++ version) =
          some (.obj [("version", .str (String.mk (
            (if "-Pro".data.isSuffixOf name.data then
              replaceAll "-Pro".data "-90b-128k-base".data name.data
             else if "-Max".data.isSuffixOf name.data then
              replaceAll "-Max".data "-38b-128k-base".data name.data
             else name.data ++ "-9b-128k-base".data) ++ ':' :: version.data)))]))
      ∧ (∀ s : String, ':' ∉ s.data → parse_model_version s = none) := by
  intro name version
  constructor
  · intro h
    have hdata : (name ++ ":" ++ version).data = name.data ++ ':' :: version.data := by
      simp [String.data_append]
    unfold parse_model_version
    rw [hdata, pySplitOnce_append ':' name.data version.data h]
  · intro s hs
    have hc : s.data.contains ':' = false := by
      rw [List.contains_eq_any_beq]
      simp only [List.any_eq_false]
      intro c hcm
      simp only [beq_iff_eq]
      intro hcc
      exact hs (hcc ▸ hcm)
    unfold parse_model_version
    unfold pySplitOnce
    rw [if_neg (by simpa using hs)]

/-- C7 witness: `"GigaChat-Pro:3.1"` reformats to
`{"version": "GigaChat-90b-128k-base:3.1"}`, and `"nocolon"` yields nil. -/
theorem C7_parse_model_version_witness :
    parse_model_version "GigaChat-Pro:3.1" =
      some (.obj [("version", .str "GigaChat-90b-128k-base:3.1")])
    ∧ parse_model_version "nocolon" = none := by
  constructor
  · have h := (C7_parse_model_version "GigaChat-Pro" "3.1").1 (by decide)
    refine h.trans ?_
    have hsfx : "-Pro".data.isSuffixOf "GigaChat-Pro".data = true := by decide
    rw [if_pos hsfx]
    have hrep : replaceAll "-Pro".data "-90b-128k-base".data "GigaChat-Pro".data =
        "GigaChat-90b-128k-base".data := by
      simp [replaceAll]
    rw [hrep]
    rfl
  · exact (C7_parse_model_version "x" "y").2 "nocolon" (by decide)

/-- C7 counterexample: for the input `"a-Pro-Pro:1"` (name ends with
`-Pro` and contains a second occurrence), the code replaces BOTH
occurrences, contradicting the claim's "only that trailing occurrence":
the result is `a-90b-128k-base-90b-128k-base:1`, not
`a-Pro-90b-128k-base:1`. -/
theorem C7_counterexample :
    parse_model_version "a-Pro-Pro:1" =
      some (.obj [("version", .str "a-90b-128k-base-90b-128k-base:1")])
    ∧ parse_model_version "a-Pro-Pro:1" ≠
      some (.obj [("version", .str "a-Pro-90b-128k-base:1")]) := by
  have hsp : pySplitOnce ':' "a-Pro-Pro:1".data = some ("a-Pro-Pro".data, "1".data) := by
    decide
  have hsfx : "-Pro".data.isSuffixOf "a-Pro-Pro".data = true := by decide
  have hrep : replaceAll "-Pro".data "-90b-128k-base".data "a-Pro-Pro".data =
      "a-90b-128k-base-90b-128k-base".data := by
    simp [replaceAll]
  have heval : parse_model_version "a-Pro-Pro:1" =
      some (.obj [("version", .str "a-90b-128k-base-90b-128k-base:1")]) := by
    simp only [parse_model_version, hsp, hsfx, if_true, hrep]
    rfl
  refine ⟨heval, ?_⟩
  intro hcontra
  rw [heval] at hcontra
  simp at hcontra

/-! ## C9 -/

theorem redact_headers_map (hs : List (String × String)) :
    redact_headers hs =
      hs.map (fun kv => (kv.1, if isSensitiveHeader kv.1 then redactValue kv.2 else kv.2)) := by
  induction hs with
  | nil => rfl
  | cons kv rest ih =>
    rcases kv with ⟨k, v⟩
    simp only [redact_headers, ih, List.map_cons]

/-- C9: `redact_headers` returns a fresh map with the same keys in the
same order; an entry whose name case-insensitively full-matches one of
the six sensitive names has its value masked (`"[REDACTED]"` when the
length is at most 4, else the first 4 characters followed by
`"...[REDACTED]"`); every other entry is kept bit-identical.  The input
is never mutated — the embedding is pure and the result is built as a new
list. -/
theorem C9_redact_headers :
    ∀ (hs : List (String × String)),
      redact_headers hs =
        hs.map (fun kv => (kv.1, if isSensitiveHeader kv.1 then redactValue kv.2 else kv.2))
      ∧ (redact_headers hs).map Prod.fst = hs.map Prod.fst
      ∧ (∀ k v, (k, v) ∈ hs → isSensitiveHeader k = false → (k, v) ∈ redact_headers hs)
      ∧ (∀ k v, (k, v) ∈ hs → isSensitiveHeader k = true →
          (k, redactValue v) ∈ redact_headers hs)
      ∧ (∀ v : String, v.length ≤ 4 → redactValue v = "[REDACTED]")
      ∧ (∀ v : String, 4 < v.length →
          redactValue v = String.mk (v.data.take 4) ++ "...[REDACTED]")
      ∧ (∀ k : String, isSensitiveHeader k = true ↔
          ∃ p ∈ sensitiveHeaderNames, k.data.map asciiLower = p.data) := by
  intro hs
  have hmap := redact_headers_map hs
  refine ⟨hmap, ?_, ?_, ?_, ?_, ?_, ?_⟩
  · rw [hmap, List.map_map]
    rfl
  · intro k v hin hns
    rw [hmap]
    refine List.mem_map.mpr ⟨(k, v), hin, ?_⟩
    simp [hns]
  · intro k v hin hsens
    rw [hmap]
    refine List.mem_map.mpr ⟨(k, v), hin, ?_⟩
    simp [hsens]
  · intro v hv
    unfold redactValue
    rw [if_pos hv]
  · intro v hv
    unfold redactValue
    rw [if_neg (by omega)]
  · intro k
    unfold isSensitiveHeader
    rw [List.any_eq_true]
    constructor
    · rintro ⟨p, hp, hpe⟩
      exact ⟨p, hp, by simpa using hpe⟩
    · rintro ⟨p, hp, hpe⟩
      exact ⟨p, hp, by simpa using hpe⟩

/-- C9 witness: `{"Authorization": "Bearer secret", "X-API-KEY": "abcd",
"ok": "value"}` redacts the first two entries (long and short rules) and
keeps `"ok"` bit-identical, preserving keys. -/
theorem C9_redact_headers_witness :
    redact_headers [("Authorization", "Bearer secret"), ("X-API-KEY", "abcd"), ("ok", "value")] =
      [("Authorization", "Bear...[REDACTED]"), ("X-API-KEY", "[REDACTED]"), ("ok", "value")] := by
  have h := (C9_redact_headers
    [("Authorization", "Bearer secret"), ("X-API-KEY", "abcd"), ("ok", "value")]).1
  rw [h]
  decide

/-! ## C10 -/

theorem dictGet_map_update_other (fs : List (String × Json)) (k k' : String) (v : Json)
    (hne : k' ≠ k) :
    dictGet (fs.map (fun p => if p.1 = k then (k, v) else p)) k' = dictGet fs k' := by
  induction fs with
  | nil => rfl
  | cons p rest ih =>
    rcases p with ⟨pk, pv⟩
    by_cases hpk : pk = k
    · subst hpk
      simp only [List.map_cons, if_pos rfl]
      unfold dictGet
      rw [List.find?_cons_of_neg _
          (by simp only [decide_eq_true_eq]; exact fun h => hne h.symm),
        List.find?_cons_of_neg _
          (by simp only [decide_eq_true_eq]; exact fun h => hne h.symm)]
      exact ih
    · simp only [List.map_cons, if_neg hpk]
      by_cases hpk' : pk = k'
      · subst hpk'
        unfold dictGet
        rw [List.find?_cons_of_pos _ (by simp), List.find?_cons_of_pos _ (by simp)]
      · unfold dictGet
        rw [List.find?_cons_of_neg _ (by simpa using hpk'),
          List.find?_cons_of_neg _ (by simpa using hpk')]
        exact ih

theorem dictGet_map_update_same (fs : List (String × Json)) (k : String) (v : Json)
    (hany : fs.any (fun p => p.1 = k) = true) :
    dictGet (fs.map (fun p => if p.1 = k then (k, v) else p)) k = some v := by
  induction fs with
  | nil => simp at hany
  | cons p rest ih =>
    rcases p with ⟨pk, pv⟩
    by_cases hpk : pk = k
    · subst hpk
      simp only [List.map_cons, if_pos rfl]
      unfold dictGet
      rw [List.find?_cons_of_pos _ (by simp)]
      simp
    · simp only [List.map_cons, if_neg hpk]
      unfold dictGet
      rw [List.find?_cons_of_neg _ (by simpa using hpk)]
      apply ih
      simp only [List.any_cons, Bool.or_eq_true, decide_eq_true_eq] at hany
      rcases hany with h | h
      · exact absurd h hpk
      · simpa using h

theorem dictGet_none_of_not_any (fs : List (String × Json)) (k : String)
    (h : fs.any (fun p => p.1 = k) = false) : dictGet fs k = none := by
  induction fs with
  | nil => rfl
  | cons p rest ih =>
    simp only [List.any_cons, Bool.or_eq_false_iff, decide_eq_false_iff_not] at h
    unfold dictGet
    rw [List.find?_cons_of_neg _ (by simpa using h.1)]
    exact ih (by simpa using h.2)

theorem dictGet_append_single (fs : List (String × Json)) (k k' : String) (v : Json) :
    dictGet (fs ++ [(k, v)]) k' =
      match dictGet fs k' with
      | some w => some w
      | none => if k' = k then some v else none := by
  induction fs with
  | nil =>
    unfold dictGet
    by_cases h : k' = k
    · subst h
      rw [List.nil_append, List.find?_cons_of_pos _ (by simp)]
      simp
    · rw [List.nil_append, List.find?_cons_of_neg _ (by simpa using fun he => h he.symm)]
      simp [h]
  | cons p rest ih =>
    by_cases hp : p.1 = k'
    · unfold dictGet
      rw [List.cons_append, List.find?_cons_of_pos _ (by simpa using hp),
        List.find?_cons_of_pos _ (by simpa using hp)]
      rfl
    · unfold dictGet
      rw [List.cons_append, List.find?_cons_of_neg _ (by simpa using hp),
        List.find?_cons_of_neg _ (by simpa using hp)]
      exact ih

theorem dictGet_dictInsert_same (fs : List (String × Json)) (k : String) (v : Json) :
    dictGet (dictInsert fs k v) k = some v := by
  unfold dictInsert
  split
  case isTrue hany => exact dictGet_map_update_same fs k v hany
  case isFalse hany =>
    rw [dictGet_append_single fs k k v]
    rw [dictGet_none_of_not_any fs k (by rw [← Bool.not_eq_true]; exact hany)]
    rw [if_pos rfl]

theorem dictGet_dictInsert_other (fs : List (String × Json)) (k k' : String) (v : Json)
    (hne : k' ≠ k) :
    dictGet (dictInsert fs k v) k' = dictGet fs k' := by
  unfold dictInsert
  split
  case isTrue hany => exact dictGet_map_update_other fs k k' v hne
  case isFalse hany =>
    rw [dictGet_append_single fs k k' v]
    rcases h : dictGet fs k' with _ | w
    · rw [if_neg hne]
    · rfl

/-- C10: `_strip_model_prefix` returns the body unchanged whenever it
does not parse as JSON, parses to a non-object, or parses to an object
whose `model` field is absent or differs from `original_model`; when the
body parses to an object whose `model` equals `original_model`, the
result is the re-serialisation of that object with `model` rewritten to
`stripped_model` in place and every other field's value preserved. -/
theorem C10_strip_model :
    ∀ (body original_model stripped_model : String)
      (fs : List (String × Json)) (v : Json),
      (loads body = none → _strip_model_prefix body original_model stripped_model = body)
      ∧ (∀ j, loads body = some j → (∀ gs, j ≠ Json.obj gs) →
          _strip_model_prefix body original_model stripped_model = body)
      ∧ (loads body = some (Json.obj fs) → dictGet fs "model" = none →
          _strip_model_prefix body original_model stripped_model = body)
      ∧ (loads body = some (Json.obj fs) → dictGet fs "model" = some v →
          pyEqStr v original_model = false →
          _strip_model_prefix body original_model stripped_model = body)
      ∧ (loads body = some (Json.obj fs) →
          dictGet fs "model" = some (Json.str original_model) →
          _strip_model_prefix body original_model stripped_model =
            jdumps (Json.obj (dictInsert fs "model" (Json.str stripped_model)))
          ∧ dictGet (dictInsert fs "model" (Json.str stripped_model)) "model" =
              some (Json.str stripped_model)
          ∧ ∀ key, key ≠ "model" →
              dictGet (dictInsert fs "model" (Json.str stripped_model)) key =
                dictGet fs key) := by
  intro body om sm fs v
  refine ⟨?_, ?_, ?_, ?_, ?_⟩
  · intro h
    unfold _strip_model_prefix
    rw [h]
  · intro j hj hno
    unfold _strip_model_prefix
    rw [hj]
    rcases j with _ | b | n | s | l | gs
    · rfl
    · rfl
    · rfl
    · rfl
    · rfl
    · exact absurd rfl (hno gs)
  · intro hj hm
    unfold _strip_model_prefix
    simp [hj, hm]
  · intro hj hm hne
    unfold _strip_model_prefix
    simp [hj, hm, hne]
  · intro hj hm
    refine ⟨?_, dictGet_dictInsert_same fs "model" (Json.str sm), ?_⟩
    · unfold _strip_model_prefix
      simp [hj, hm, pyEqStr]
    · intro key hkey
      exact dictGet_dictInsert_other fs "model" key (Json.str sm) hkey

/-- C10 witness: `{"model": "t/m", "x": 1}` with `original = "t/m"`,
`stripped = "m"` re-serialises with only the model changed; a non-JSON
body is returned unchanged. -/
theorem C10_strip_model_witness :
    _strip_model_prefix "\x7b\"model\": \"t/m\", \"x\": 1\x7d" "t/m" "m" =
      "\x7b\"model\": \"m\", \"x\": 1\x7d"
    ∧ _strip_model_prefix "not json" "t/m" "m" = "not json" := by
  constructor
  · have h := (C10_strip_model "\x7b\"model\": \"t/m\", \"x\": 1\x7d" "t/m" "m"
      [("model", Json.str "t/m"), ("x", Json.num 1)] Json.null).2.2.2.2
    have h2 := (h rfl rfl).1
    rw [h2]
    rfl
  · exact (C10_strip_model "not json" "t/m" "m" [] Json.null).1 rfl

/-! ## C8 -/

/-- The per-line selection of `_emit_streaming_metrics`: the stripped
payload of a stripped line that starts with `data:` and is not
`data: [DONE]`. -/
def dataLineSel (line : List Char) : Option (List Char) :=
  let stripped := pyStripList line
  if "data:".data.isPrefixOf stripped ∧ stripped ≠ "data: [DONE]".data then
    some (pyStripList (stripped.drop 5))
  else none

/-- Join lines with `"\n"` (the shape of an SSE transcript split into its
lines). -/
def nlJoin : List (List Char) → List Char
  | [] => []
  | [l] => l
  | l :: rest => l ++ '\n' :: nlJoin rest

theorem foldl_keepLast (f : List Char → Option (List Char)) :
    ∀ (lines : List (List Char)) (acc : Option (List Char)),
      lines.foldl (fun a l => match f l with | some y => some y | none => a) acc =
        ((lines.filterMap f).getLast?).or acc := by
  intro lines
  induction lines with
  | nil => intro acc; simp
  | cons l rest ih =>
    intro acc
    rw [List.foldl_cons, ih]
    rcases hf : f l with _ | y
    · rw [List.filterMap_cons_none hf]
    · rw [List.filterMap_cons_some hf]
      rcases hrest : rest.filterMap f with _ | ⟨z, L⟩
      · simp
      · rw [List.getLast?_cons_cons]
        have hsome : ((z :: L).getLast?).isSome = true := by
          rw [List.getLast?_isSome]
          simp
        rcases hlast : (z :: L).getLast? with _ | w
        · rw [hlast] at hsome
          simp at hsome
        · rfl

theorem selectLastData_eq (text : List Char) :
    selectLastData text = ((splitlines text).filterMap dataLineSel).getLast? := by
  have hfun : (fun (acc : Option (List Char)) (line : List Char) =>
      let stripped := pyStripList line
      if "data:".data.isPrefixOf stripped ∧ stripped ≠ "data: [DONE]".data then
        some (pyStripList (stripped.drop 5))
      else acc) =
      (fun (a : Option (List Char)) (l : List Char) =>
        match dataLineSel l with | some y => some y | none => a) := by
    funext acc line
    unfold dataLineSel
    by_cases h : "data:".data.isPrefixOf (pyStripList line)
        ∧ pyStripList line ≠ "data: [DONE]".data
    · simp only [if_pos h]
    · simp only [if_neg h]
  unfold selectLastData
  rw [hfun, foldl_keepLast dataLineSel (splitlines text) none, Option.or_none]

theorem splitlinesGo_no_nl :
    ∀ (l acc : List Char), '\n' ∉ l → '\r' ∉ l →
      splitlinesGo l acc = [acc.reverse ++ l] := by
  intro l
  induction l with
  | nil => intro acc _ _; simp [splitlinesGo]
  | cons c rest ih =>
    intro acc hn hr
    have hcn : c ≠ '\n' := fun h => hn (h ▸ List.mem_cons_self c rest)
    have hcr : c ≠ '\r' := fun h => hr (h ▸ List.mem_cons_self c rest)
    rw [splitlinesGo]
    rw [ih (c :: acc) (fun h => hn (List.mem_cons_of_mem c h))
      (fun h => hr (List.mem_cons_of_mem c h))]
    · simp
    · intro r1 hc hrest
      exact hcr hc
    · intro hc
      exact hcn hc
    · intro hc
      exact hcr hc

theorem splitlinesGo_append_nl :
    ∀ (l acc r : List Char), '\n' ∉ l → '\r' ∉ l →
      splitlinesGo (l ++ '\n' :: r) acc =
        (acc.reverse ++ l) :: (if r.isEmpty then [] else splitlinesGo r []) := by
  intro l
  induction l with
  | nil =>
    intro acc r _ _
    rw [List.nil_append, splitlinesGo]
    simp
  | cons c rest ih =>
    intro acc r hn hr
    have hcn : c ≠ '\n' := fun h => hn (h ▸ List.mem_cons_self c rest)
    have hcr : c ≠ '\r' := fun h => hr (h ▸ List.mem_cons_self c rest)
    rw [List.cons_append, splitlinesGo]
    rw [ih (c :: acc) r (fun h => hn (List.mem_cons_of_mem c h))
      (fun h => hr (List.mem_cons_of_mem c h))]
    · simp
    · intro r1 hc hrest
      exact hcr hc
    · intro hc
      exact hcn hc
    · intro hc
      exact hcr hc

theorem splitlines_nlJoin :
    ∀ (lines : List (List Char)),
      (∀ l ∈ lines, '\n' ∉ l ∧ '\r' ∉ l) → lines.getLast? ≠ some [] →
      splitlines (nlJoin lines) = lines := by
  intro lines
  induction lines with
  | nil => intro _ _; rfl
  | cons l rest ih =>
    intro hmem hlast
    rcases rest with _ | ⟨r, rs⟩
    · have hl : l ≠ [] := by
        intro h
        exact hlast (by simp [h])
      have hl2 := hmem l (List.mem_cons_self l [])
      unfold nlJoin splitlines
      rw [if_neg (by simpa using hl)]
      rw [splitlinesGo_no_nl l [] hl2.1 hl2.2]
      simp
    · have hR : splitlines (nlJoin (r :: rs)) = r :: rs := by
        apply ih
        · intro x hx
          exact hmem x (List.mem_cons_of_mem l hx)
        · intro h
          apply hlast
          rw [List.getLast?_cons_cons]
          exact h
      have hjoin : nlJoin (l :: r :: rs) = l ++ '\n' :: nlJoin (r :: rs) := by
        rfl
      have hl2 := hmem l (List.mem_cons_self l _)
      rw [hjoin]
      unfold splitlines
      rw [if_neg (by simp)]
      rw [splitlinesGo_append_nl l [] (nlJoin (r :: rs)) hl2.1 hl2.2]
      have hRne : (nlJoin (r :: rs)).isEmpty = false := by
        rcases hE : nlJoin (r :: rs) with _ | ⟨c, cs⟩
        · rw [hE] at hR
          unfold splitlines at hR
          simp at hR
        · rfl
      rw [hRne, if_neg (by simp)]
      have hGo : splitlinesGo (nlJoin (r :: rs)) [] = r :: rs := by
        unfold splitlines at hR
        rw [if_neg (by simp [hRne])] at hR
        · exact hR
      rw [hGo]
      simp

/-- C8 (amended): after a streamed response closes, metrics extraction
considers the lines whose WHITESPACE-STRIPPED form starts with `data:`
and differs from `data: [DONE]`, keeps the last such line's stripped
payload (formalised: the last element of the per-line selection over the
transcript's lines), and parses it as JSON; for the claim's concrete
usage payload the three counters are incremented by exactly 7, 5 and 2
(total, prompt, completion) under labels
`{type: "prompt", name: "proxy", group_id: <header or "unknown">,
model: "m"}`. -/
theorem C8_stream_metrics :
    (∀ g : String,
      _emit_streaming_metrics
        ["data: \x7b\"usage\": \x7b\"prompt_tokens\": 5, \"completion_tokens\": 2, \"total_tokens\": 7\x7d, \"model\": \"m\"\x7d\n\n",
         "data: [DONE]\n\n"] g =
        [⟨.total, ⟨"prompt", "proxy", g, .str "m"⟩, 7⟩,
         ⟨.promptK, ⟨"prompt", "proxy", g, .str "m"⟩, 5⟩,
         ⟨.completion, ⟨"prompt", "proxy", g, .str "m"⟩, 2⟩])
    ∧ ∀ (lines : List (List Char)),
        (∀ l ∈ lines, '\n' ∉ l ∧ '\r' ∉ l) → lines.getLast? ≠ some [] →
        selectLastData (nlJoin lines) = (lines.filterMap dataLineSel).getLast? := by
  constructor
  · intro g
    rfl
  · intro lines hmem hlast
    rw [selectLastData_eq, splitlines_nlJoin lines hmem hlast]

/-- C8 witness: the selection over explicit lines keeps the last `data:`
line, and the concrete transcript increments `(7, 5, 2)` with group id
`"g7"`. -/
theorem C8_stream_metrics_witness :
    selectLastData (nlJoin ["x".data, "data: 1".data, "data: 2".data, "data: [DONE]".data]) =
      some "2".data
    ∧ _emit_streaming_metrics
        ["data: \x7b\"usage\": \x7b\"prompt_tokens\": 5, \"completion_tokens\": 2, \"total_tokens\": 7\x7d, \"model\": \"m\"\x7d\n\n",
         "data: [DONE]\n\n"] "g7" =
        [⟨.total, ⟨"prompt", "proxy", "g7", .str "m"⟩, 7⟩,
         ⟨.promptK, ⟨"prompt", "proxy", "g7", .str "m"⟩, 5⟩,
         ⟨.completion, ⟨"prompt", "proxy", "g7", .str "m"⟩, 2⟩] := by
  constructor
  · have h := C8_stream_metrics.2
      ["x".data, "data: 1".data, "data: 2".data, "data: [DONE]".data]
      (by decide) (by decide)
    rw [h]
    decide
  · exact C8_stream_metrics.1 "g7"

/-- C8 counterexample: a transcript whose only `data:` line carries
leading whitespace.  The claim's reading ("lines that start with
`data:`", no stripping) selects nothing and predicts no counter
increments, but the code strips each line first and emits `(7, 5, 2)`. -/
theorem C8_counterexample :
    _emit_streaming_metrics
      [" data: \x7b\"usage\": \x7b\"prompt_tokens\": 5, \"completion_tokens\": 2, \"total_tokens\": 7\x7d, \"model\": \"m\"\x7d"]
      "g" =
      [⟨.total, ⟨"prompt", "proxy", "g", .str "m"⟩, 7⟩,
       ⟨.promptK, ⟨"prompt", "proxy", "g", .str "m"⟩, 5⟩,
       ⟨.completion, ⟨"prompt", "proxy", "g", .str "m"⟩, 2⟩]
    ∧ emitStreamingMetricsClaim
        [" data: \x7b\"usage\": \x7b\"prompt_tokens\": 5, \"completion_tokens\": 2, \"total_tokens\": 7\x7d, \"model\": \"m\"\x7d"]
        "g" = []
    ∧ ([⟨.total, ⟨"prompt", "proxy", "g", .str "m"⟩, 7⟩,
        ⟨.promptK, ⟨"prompt", "proxy", "g", .str "m"⟩, 5⟩,
        ⟨.completion, ⟨"prompt", "proxy", "g", .str "m"⟩, 2⟩] : List CounterInc) ≠ [] := by
  refine ⟨rfl, rfl, by simp⟩

end Yallmp
